import Mathlib

/-!
Shallow embedding of `medication_reminder_app.py` (Flask medication-reminder
app) and proofs about its due-date computation, notification milestone
evaluation, de-duplication log, customer registration and schema migration.

Dates are modelled as integers counting days (a proleptic day number), so
`timedelta(weeks = w)` is `7 * w` days and date subtraction `.days` is
integer subtraction.  SQLite rows are modelled as Lean structures holding
exactly the columns the embedded code reads, with nullable integer columns
as `Option Int`.
-/

namespace MedApp

/-- A row of the `DoseLogs` table as read by the app:
`customer_id`, `taken_date`, `taken_week` (nullable), `extra_weeks`
(added by `migrate_db`, default 0), `note`. -/
structure DoseLog where
  customer_id : Int
  taken_date : Int
  taken_week : Option Int
  extra_weeks : Int
  note : String
deriving DecidableEq, Repr

/-- A row of the `Customers` table: `id`, `name`, `contact`, `start_date`,
and the migrated `is_active` flag (default 1 = true). -/
structure Customer where
  id : Int
  name : String
  contact : String
  start_date : Int
  is_active : Bool
deriving DecidableEq, Repr

/-- A row of the `NotificationLogs` table, restricted to the three columns
every query touches: `customer_id`, `notify_type`, `notify_date`
(`id` and `sent_at` are never read by the logic). -/
structure NotifRecord where
  customer_id : Int
  notify_type : String
  notify_date : Int
deriving DecidableEq, Repr

/-- The query `SELECT ... FROM DoseLogs WHERE customer_id = ?`: the dose
logs of one customer. -/
def logsFor (logs : List DoseLog) (cid : Int) : List DoseLog :=
  logs.filter (fun l => decide (l.customer_id = cid))

/-- One step of scanning for the row that `ORDER BY taken_date DESC LIMIT 1`
returns: keep whichever of the accumulator and the next row has the later
`taken_date` (the earlier-seen row on ties). -/
def laterLog (acc : Option DoseLog) (l : DoseLog) : Option DoseLog :=
  match acc with
  | none => some l
  | some m => if m.taken_date < l.taken_date then some l else some m

/-- The row that `ORDER BY taken_date DESC LIMIT 1` returns: a row of
maximal `taken_date`,
`none` when the list is empty. -/
def latestLog (ls : List DoseLog) : Option DoseLog :=
  ls.foldl laterLog none

/-- Interval handling of `check_and_notify` and `view_customer`:
`int(last[1]) if last[1] else 4` — a missing (`NULL`) or zero (falsy)
`taken_week` falls back to the default 4 weeks. -/
def effWeek (ow : Option Int) : Int :=
  match ow with
  | none => 4
  | some w => if w = 0 then 4 else w

/-- Due-date computation of `check_and_notify` (lines 107-116): from the
latest dose log, `next_date = last_taken + timedelta(weeks = taken_week)`
with the falsy-fallback interval; with no dose log,
`start_date + timedelta(weeks = 4)`. -/
def computeNextDueDate (cust : Customer) (logs : List DoseLog) : Int :=
  match latestLog (logsFor logs cust.id) with
  | some l => l.taken_date + 7 * effWeek l.taken_week
  | none => cust.start_date + 7 * 4

/-- Due-date computation of `view_customer` (lines 251-258): identical
selection and fallback, written at its own call site. -/
def viewNextDueDate (cust : Customer) (logs : List DoseLog) : Int :=
  match latestLog (logsFor logs cust.id) with
  | some l => l.taken_date + 7 * effWeek l.taken_week
  | none => cust.start_date + 7 * 4

/-- Due-date computation of `index` (lines 173-182): it runs
`taken_week = int(last_log[1])` with no falsy fallback, so a `NULL`
`taken_week` raises `TypeError` (modelled as `none`) and a zero interval is
used as is. -/
def indexNextDueDate (cust : Customer) (logs : List DoseLog) : Option Int :=
  match latestLog (logsFor logs cust.id) with
  | some l =>
      match l.taken_week with
      | some w => some (l.taken_date + 7 * w)
      | none => none
  | none => some (cust.start_date + 7 * 4)

/-- The D-day computation `d_day = (next_date - today).days`
(lines 117, 178, 263). -/
def computeDDay (dueDate today : Int) : Int :=
  dueDate - today

/-- The fixed milestone offsets `notify_days = [7, 0]`: D-7 and D-0. -/
def notifyDays : List Int := [7, 0]

/-- The notification type string: both branches of
`notify_type = "D-%d" if nd != 0 else "D-0"` produce `"D-" ++ nd`. -/
def notifyType (nd : Int) : String :=
  if nd ≠ 0 then "D-" ++ toString nd else "D-0"

/-- The duplicate check
`SELECT 1 FROM NotificationLogs WHERE customer_id=? AND notify_type=? AND notify_date=?`
(line 123): does a record for the triple exist? -/
def tripleMatches (r : NotifRecord) (c : Int) (t : String) (d : Int) : Bool :=
  decide (r.customer_id = c) && decide (r.notify_type = t) && decide (r.notify_date = d)

def hasRecord (recs : List NotifRecord) (c : Int) (t : String) (d : Int) : Bool :=
  recs.any (fun r => tripleMatches r c t d)

/-- The milestones that actually fire for one customer on one run: offsets
`nd` in `notify_days` with `d_day == nd` and no existing
(customer, type, due-date) record (lines 119-127). -/
def evaluateNotifications (cid dueDate dDay : Int) (recs : List NotifRecord) : List Int :=
  notifyDays.filter
    (fun nd => decide (dDay = nd) && !(hasRecord recs cid (notifyType nd) dueDate))

/-- The email sender `send_email_smtp` (lines 45-85): it returns `False` when `EMAIL_USER` or
`EMAIL_PASS` is unset or empty (`not smtp_user or not smtp_pass`), `False`
when the recipient is empty, and otherwise the outcome of the SMTP
transport attempt (`True` on delivery, `False` on an exception), passed in
as `transportOk`. -/
def send_email_smtp (smtp_user smtp_pass : Option String) (to_email : String)
    (transportOk : Bool) : Bool :=
  if smtp_user.getD "" = "" ∨ smtp_pass.getD "" = "" then false
  else if to_email = "" then false
  else transportOk

/-- The body of the inner `for nd in notify_days` loop of `check_and_notify`
(lines 119-139) acting on the `NotificationLogs` state: if `d_day == nd`,
check for an existing (customer, type, due-date) record; when none exists,
attempt the send and insert the record only when the send reported
success (`if sent:`). -/
def processMilestone (recs : List NotifRecord) (cid dueDate dDay nd : Int)
    (sendOk : Bool) : List NotifRecord :=
  if dDay = nd then
    if hasRecord recs cid (notifyType nd) dueDate then recs
    else if sendOk then recs ++ [⟨cid, notifyType nd, dueDate⟩] else recs
  else recs

/-- One milestone attempt as seen by the notification log: which customer,
due date, D-day and offset were evaluated, and whether the transport
reported success. -/
structure Attempt where
  cid : Int
  dueDate : Int
  dDay : Int
  nd : Int
  sendOk : Bool

/-- Sequential execution of a list of milestone attempts against the
notification log. -/
def runAttempts (recs : List NotifRecord) (as : List Attempt) : List NotifRecord :=
  as.foldl (fun r a => processMilestone r a.cid a.dueDate a.dDay a.nd a.sendOk) recs

/-- The inputs of one `check_and_notify` run: the customer roster, the dose
logs, today's date, and the transport outcome for each (customer, offset)
attempt of the run. -/
structure RunInput where
  custs : List Customer
  logs : List DoseLog
  today : Int
  oracle : Int → Int → Bool

/-- The milestone attempts one `check_and_notify` run performs, in order:
for each customer of the roster, the due date and D-day computed from its
dose logs, tried against each offset of `notify_days`. -/
def runAttemptList (ri : RunInput) : List Attempt :=
  ri.custs.foldr
    (fun cust acc =>
      (notifyDays.map (fun nd =>
        { cid := cust.id
          dueDate := computeNextDueDate cust ri.logs
          dDay := computeDDay (computeNextDueDate cust ri.logs) ri.today
          nd := nd
          sendOk := ri.oracle cust.id nd })) ++ acc)
    []

/-- The job `check_and_notify` (lines 89-139) as a transformer of the
`NotificationLogs` state: iterate over all customers, compute the due date
and D-day, and run the milestone loop. -/
def check_and_notify (ri : RunInput) (recs : List NotifRecord) : List NotifRecord :=
  ri.custs.foldl
    (fun r cust =>
      let nextDate := computeNextDueDate cust ri.logs
      let dDay := computeDDay nextDate ri.today
      notifyDays.foldl
        (fun r2 nd => processMilestone r2 cust.id nextDate dDay nd (ri.oracle cust.id nd))
        r)
    recs

/-- The notification-log state after a sequence of sequential
`check_and_notify` runs, starting from the empty log. -/
def applyRuns (runs : List RunInput) : List NotifRecord :=
  runs.foldl (fun r ri => check_and_notify ri r) []

/-- All milestone attempts of a sequence of runs, in execution order. -/
def allAttempts (runs : List RunInput) : List Attempt :=
  runs.foldr (fun ri acc => runAttemptList ri ++ acc) []

/-- The de-duplication invariant of the `NotificationLogs` table: at most
one record per (customer, milestone-type, due-date) triple. -/
def dedupInvariant (recs : List NotifRecord) : Prop :=
  ∀ c t d, recs.countP (fun r => tripleMatches r c t d) ≤ 1

/-- How many successful sends for the triple `(c, t, d)` a list of attempts
performs from state `recs`: an attempt sends when its milestone fires
(`dDay = nd`), is not suppressed by an existing record, and the transport
succeeds. -/
def successSends (recs : List NotifRecord) (c : Int) (t : String) (d : Int) :
    List Attempt → Nat
  | [] => 0
  | a :: as =>
      let fires := decide (a.dDay = a.nd)
        && !(hasRecord recs a.cid (notifyType a.nd) a.dueDate) && a.sendOk
      let hit := fires && tripleMatches ⟨a.cid, notifyType a.nd, a.dueDate⟩ c t d
      (if hit then 1 else 0)
        + successSends (processMilestone recs a.cid a.dueDate a.dDay a.nd a.sendOk) c t d as

/-- The record store touched by `add_customer`: the `Customers` and
`DoseLogs` tables plus the autoincrement counter that assigns the next
customer id (`c.lastrowid`). -/
structure Store where
  customers : List Customer
  doseLogs : List DoseLog
  nextCustomerId : Int
deriving Repr

/-- The route `add_customer` (lines 197-224): if any existing customer (active or
not) has the same name, render an error page and change nothing; otherwise
insert one `Customers` row (the migrated `is_active` column defaults to 1)
and one seed `DoseLogs` row with `taken_date = start_date`,
`taken_week = first_weeks` and the fixed first-dose note. -/
def add_customer (s : Store) (name contact : String) (start_date first_weeks : Int) :
    Store :=
  if s.customers.any (fun cu => decide (cu.name = name)) then s
  else
    { customers := s.customers
        ++ [{ id := s.nextCustomerId, name := name, contact := contact
              start_date := start_date, is_active := true }]
      doseLogs := s.doseLogs
        ++ [{ customer_id := s.nextCustomerId, taken_date := start_date
              taken_week := some first_weeks, extra_weeks := 0, note := "첫 복용" }]
      nextCustomerId := s.nextCustomerId + 1 }

/-- The database schema as the column lists of the three tables. -/
structure Schema where
  customersCols : List String
  doseLogsCols : List String
  notifLogsCols : List String
deriving DecidableEq, Repr

/-- One `ALTER TABLE ... ADD COLUMN col` statement: it fails with the `duplicate column
name` operational error when the column already exists. -/
def alterAddColumn (cols : List String) (col : String) : Except String (List String) :=
  if col ∈ cols then Except.error "duplicate column name"
  else Except.ok (cols ++ [col])

/-- The `try/except sqlite3.OperationalError` wrapper of `migrate_db`:
a `duplicate column name` error is swallowed (the column is left as is);
any other operational error is re-raised. -/
def tryAddColumn (cols : List String) (col : String) : Except String (List String) :=
  match alterAddColumn cols col with
  | Except.ok cs => Except.ok cs
  | Except.error e =>
      if e = "duplicate column name" then Except.ok cols else Except.error e

/-- The migration `migrate_db` (lines 299-326): add `is_active` to `Customers` and
`extra_weeks` to `DoseLogs`, skipping each when it already exists. -/
def migrate_db (s : Schema) : Except String Schema := do
  let cc ← tryAddColumn s.customersCols "is_active"
  let dc ← tryAddColumn s.doseLogsCols "extra_weeks"
  pure { s with customersCols := cc, doseLogsCols := dc }

/-- Overwrite the `extra_weeks` field of a dose log, leaving every other
column unchanged: used to state that `extra_weeks` never influences the
computed due dates. -/
def setExtra (e : Int) (l : DoseLog) : DoseLog :=
  { l with extra_weeks := e }

/-! ## Helper lemmas about the latest-log selection -/

theorem foldl_laterLog_some (ls : List DoseLog) :
    ∀ (acc : Option DoseLog) (l : DoseLog),
      ls.foldl laterLog acc = some l → acc = some l ∨ l ∈ ls := by
  induction ls with
  | nil => intro acc l h; exact Or.inl h
  | cons x xs ih =>
      intro acc l h
      rw [List.foldl_cons] at h
      rcases ih (laterLog acc x) l h with h1 | h1
      · cases acc with
        | none =>
            simp only [laterLog] at h1
            exact Or.inr (by simp [← Option.some_inj.mp h1])
        | some m =>
            simp only [laterLog] at h1
            by_cases hlt : m.taken_date < x.taken_date
            · rw [if_pos hlt] at h1
              exact Or.inr (by simp [← Option.some_inj.mp h1])
            · rw [if_neg hlt] at h1
              exact Or.inl h1
      · exact Or.inr (List.mem_cons_of_mem _ h1)

theorem foldl_laterLog_max (ls : List DoseLog) :
    ∀ (acc : Option DoseLog) (l : DoseLog),
      ls.foldl laterLog acc = some l →
      (∀ m, acc = some m → m.taken_date ≤ l.taken_date) ∧
      (∀ x ∈ ls, x.taken_date ≤ l.taken_date) := by
  induction ls with
  | nil =>
      intro acc l h
      refine ⟨fun m hm => ?_, fun x hx => absurd hx (List.not_mem_nil x)⟩
      rw [List.foldl_nil] at h
      rw [h] at hm
      rw [Option.some_inj.mp hm]
  | cons x xs ih =>
      intro acc l h
      rw [List.foldl_cons] at h
      obtain ⟨hacc, hxs⟩ := ih (laterLog acc x) l h
      have hx : x.taken_date ≤ l.taken_date := by
        cases acc with
        | none => exact hacc x rfl
        | some m =>
            simp only [laterLog] at hacc
            by_cases hlt : m.taken_date < x.taken_date
            · exact hacc x (by rw [if_pos hlt])
            · exact le_trans (le_of_not_lt hlt) (hacc m (by rw [if_neg hlt]))
      refine ⟨fun m hm => ?_, fun y hy => ?_⟩
      · cases hm
        simp only [laterLog] at hacc
        by_cases hlt : m.taken_date < x.taken_date
        · exact le_trans (le_of_lt hlt) hx
        · exact hacc m (by rw [if_neg hlt])
      · rcases List.mem_cons.mp hy with rfl | hy
        · exact hx
        · exact hxs y hy

theorem latestLog_mem (ls : List DoseLog) (l : DoseLog)
    (h : latestLog ls = some l) : l ∈ ls := by
  rcases foldl_laterLog_some ls none l h with h1 | h1
  · exact absurd h1 (by simp)
  · exact h1

theorem latestLog_max (ls : List DoseLog) (l : DoseLog)
    (h : latestLog ls = some l) : ∀ x ∈ ls, x.taken_date ≤ l.taken_date :=
  (foldl_laterLog_max ls none l h).2

/-! ## Claim theorems -/

/-- C1, counterexample: the claim says the due date is the latest
taken-date plus interval-in-weeks × 7 days for every value of the
interval.  For a dose record with `taken_week = 0` (falsy in Python) the
code substitutes the default 4 weeks, so the due date is taken-date + 28,
not taken-date + 0. -/
theorem C1_counterexample :
    computeNextDueDate ⟨1, "A", "c", 0, true⟩ [⟨1, 100, some 0, 0, ""⟩]
      ≠ 100 + 7 * 0 := by decide

/-- C1 (amended): for every customer with at least one dose record, the
due-date computation of `check_and_notify` selects a record with the
latest taken-date, and whenever that record's interval-in-weeks is present
and nonzero the result is its taken-date plus interval-in-weeks × 7 days
(a missing or zero interval instead falls back to the default 4 weeks). -/
theorem C1_due_date_from_latest (cust : Customer) (logs : List DoseLog)
    (l : DoseLog) (w : Int)
    (hl : latestLog (logsFor logs cust.id) = some l)
    (hw : l.taken_week = some w) (hw0 : w ≠ 0) :
    computeNextDueDate cust logs = l.taken_date + 7 * w ∧
    l ∈ logsFor logs cust.id ∧
    ∀ x ∈ logsFor logs cust.id, x.taken_date ≤ l.taken_date := by
  refine ⟨?_, latestLog_mem _ _ hl, latestLog_max _ _ hl⟩
  rw [computeNextDueDate, hl]
  simp [effWeek, hw, hw0]

/-- C1, witness at a concrete input. -/
theorem C1_due_date_from_latest_witness :
    computeNextDueDate ⟨1, "B", "c", 0, true⟩ [⟨1, 100, some 6, 0, ""⟩]
      = 100 + 7 * 6 :=
  (C1_due_date_from_latest ⟨1, "B", "c", 0, true⟩ [⟨1, 100, some 6, 0, ""⟩]
    ⟨1, 100, some 6, 0, ""⟩ 6 rfl rfl (by decide)).1

/-- C2: for every customer with no dose record, the due-date computation
returns the enrollment date plus 28 days; it is a total function, so it
always produces a date. -/
theorem C2_default_due_date (cust : Customer) (logs : List DoseLog)
    (h : logsFor logs cust.id = []) :
    computeNextDueDate cust logs = cust.start_date + 28 := by
  rw [computeNextDueDate, h]
  norm_num [latestLog]

/-- C2, witness at a concrete input. -/
theorem C2_default_due_date_witness :
    computeNextDueDate ⟨1, "A", "c", 0, true⟩ [] = 0 + 28 := by
  have h := C2_default_due_date ⟨1, "A", "c", 0, true⟩ [] rfl
  simpa using h

/-- C3: with no prior notification records, a milestone offset is in the
firing set exactly when it belongs to the fixed set `notify_days = [7, 0]`
and `dDay` equals it; when `dDay` is neither 7 nor 0, nothing fires (no
catch-up for missed days). -/
theorem C3_milestone_fires_iff (cid due dDay nd : Int) :
    (nd ∈ evaluateNotifications cid due dDay [] ↔ nd ∈ notifyDays ∧ dDay = nd) ∧
    (dDay ≠ 7 → dDay ≠ 0 → evaluateNotifications cid due dDay [] = []) := by
  constructor
  · simp [evaluateNotifications, hasRecord, List.mem_filter, and_comm]
  · intro h7 h0
    simp [evaluateNotifications, notifyDays, hasRecord, h7, h0]

/-- C3, witness at a concrete input. -/
theorem C3_milestone_fires_iff_witness :
    evaluateNotifications 1 128 3 [] = [] :=
  (C3_milestone_fires_iff 1 128 3 7).2 (by decide) (by decide)

/-- C7: the D-day computation is the signed whole-day difference
`dueDate - today`; it is zero exactly when today equals the due date, and
advancing today by one day decreases it by exactly one. -/
theorem C7_dday_difference (due today : Int) :
    computeDDay due today = due - today ∧
    (computeDDay due today = 0 ↔ today = due) ∧
    computeDDay due (today + 1) = computeDDay due today - 1 := by
  refine ⟨rfl, ?_, ?_⟩ <;> simp [computeDDay] <;> omega

theorem hasRecord_append (a b : List NotifRecord) (c : Int) (t : String) (d : Int) :
    hasRecord (a ++ b) c t d = (hasRecord a c t d || hasRecord b c t d) := by
  simp [hasRecord, List.any_append]

/-- C4: evaluating the notification milestones twice with the same inputs
returns the same set (the evaluation is a pure function of its inputs);
and after appending a NotificationRecord for every fired milestone,
re-evaluating with the same (customer, dueDate, dDay) returns the empty
set: every previously fired milestone is suppressed. -/
theorem C4_evaluation_idempotent (cid due dDay : Int) (recs : List NotifRecord) :
    evaluateNotifications cid due dDay recs = evaluateNotifications cid due dDay recs ∧
    evaluateNotifications cid due dDay
      (recs ++ (evaluateNotifications cid due dDay recs).map
        (fun nd => ⟨cid, notifyType nd, due⟩)) = [] := by
  refine ⟨rfl, ?_⟩
  rw [evaluateNotifications, List.filter_eq_nil_iff]
  intro nd hnd
  simp only [Bool.and_eq_true, decide_eq_true_eq, Bool.not_eq_true', not_and]
  intro hdd
  rw [hasRecord_append]
  rcases Bool.eq_false_or_eq_true (hasRecord recs cid (notifyType nd) due) with hr | hr
  · simp [hr]
  · have hmem : nd ∈ evaluateNotifications cid due dDay recs := by
      rw [evaluateNotifications]
      exact List.mem_filter.mpr ⟨hnd, by simp [hdd, hr]⟩
    have hrec2 : hasRecord
        ((evaluateNotifications cid due dDay recs).map
          (fun x => (⟨cid, notifyType x, due⟩ : NotifRecord))) cid (notifyType nd) due
          = true := by
      rw [hasRecord]
      refine List.any_eq_true.mpr
        ⟨⟨cid, notifyType nd, due⟩, List.mem_map_of_mem _ hmem, ?_⟩
      simp [tripleMatches]
    simp [hrec2]

/-- C5: a failed send leaves the notification log unchanged (so the same
milestone fires again on a later run the same day), a record is inserted
only when the send reported success, and `send_email_smtp` reports failure
whenever the credentials are missing or the recipient address is empty. -/
theorem C5_no_record_on_failed_send (recs : List NotifRecord) (cid due dDay nd : Int)
    (user pw : Option String) (dest : String) (tok : Bool) :
    (user.getD "" = "" ∨ pw.getD "" = "" → send_email_smtp user pw dest tok = false) ∧
    (dest = "" → send_email_smtp user pw dest tok = false) ∧
    processMilestone recs cid due dDay nd false = recs ∧
    (∀ ok, processMilestone recs cid due dDay nd ok ≠ recs → ok = true) ∧
    evaluateNotifications cid due dDay (processMilestone recs cid due dDay nd false)
      = evaluateNotifications cid due dDay recs := by
  have hfail : processMilestone recs cid due dDay nd false = recs := by
    rw [processMilestone]
    split
    · split
      · rfl
      · simp
    · rfl
  refine ⟨?_, ?_, hfail, ?_, by rw [hfail]⟩
  · intro h
    rw [send_email_smtp, if_pos h]
  · intro h
    subst h
    simp [send_email_smtp]
  · intro ok h
    cases ok with
    | false => exact absurd hfail h
    | true => rfl

/-- C5, witness at concrete inputs: a send with no credentials fails, a
send to an empty recipient fails, and a failed send inserts nothing. -/
theorem C5_no_record_on_failed_send_witness :
    send_email_smtp none (some "p") "a@b" true = false ∧
    send_email_smtp (some "u") (some "p") "" true = false ∧
    processMilestone [] 1 28 0 0 false = [] :=
  ⟨(C5_no_record_on_failed_send [] 1 28 0 0 none (some "p") "a@b" true).1 (Or.inl rfl),
   (C5_no_record_on_failed_send [] 1 28 0 0 (some "u") (some "p") "" true).2.1 rfl,
   (C5_no_record_on_failed_send [] 1 28 0 0 none none "" false).2.2.1⟩

/-- C8: registering a name that any existing customer (active or inactive)
already bears leaves the store unchanged; otherwise exactly one customer
row and exactly one seed dose record with `taken_date = start_date` are
appended. -/
theorem C8_add_customer_unique_name (s : Store) (name contact : String) (sd fw : Int) :
    ((∃ cu ∈ s.customers, cu.name = name) → add_customer s name contact sd fw = s) ∧
    ((¬ ∃ cu ∈ s.customers, cu.name = name) →
      (add_customer s name contact sd fw).customers
        = s.customers ++ [{ id := s.nextCustomerId, name := name, contact := contact,
                            start_date := sd, is_active := true }] ∧
      (add_customer s name contact sd fw).doseLogs
        = s.doseLogs ++ [{ customer_id := s.nextCustomerId, taken_date := sd,
                           taken_week := some fw, extra_weeks := 0, note := "첫 복용" }]) := by
  constructor
  · intro h
    simp only [add_customer]
    rw [if_pos]
    simpa [List.any_eq_true] using h
  · intro h
    simp only [add_customer]
    rw [if_neg]
    · exact ⟨rfl, rfl⟩
    · simpa [List.any_eq_true] using h

/-- C8, witness: registering a duplicate of an inactive customer's name
changes nothing; registering a fresh name appends one customer and one
seed dose record dated at enrollment. -/
theorem C8_add_customer_unique_name_witness :
    add_customer ⟨[{ id := 1, name := "n", contact := "c", start_date := 0,
                     is_active := false }], [], 2⟩ "n" "x" 5 4
      = ⟨[{ id := 1, name := "n", contact := "c", start_date := 0,
            is_active := false }], [], 2⟩ ∧
    (add_customer ⟨[], [], 1⟩ "n" "c" 10 4).customers
      = [{ id := 1, name := "n", contact := "c", start_date := 10, is_active := true }] ∧
    (add_customer ⟨[], [], 1⟩ "n" "c" 10 4).doseLogs
      = [{ customer_id := 1, taken_date := 10, taken_week := some 4,
           extra_weeks := 0, note := "첫 복용" }] := by
  have h1 := (C8_add_customer_unique_name
      ⟨[{ id := 1, name := "n", contact := "c", start_date := 0,
          is_active := false }], [], 2⟩ "n" "x" 5 4).1
    ⟨{ id := 1, name := "n", contact := "c", start_date := 0, is_active := false },
      by simp, rfl⟩
  have h2 := (C8_add_customer_unique_name ⟨[], [], 1⟩ "n" "c" 10 4).2 (by simp)
  exact ⟨h1, by simpa using h2.1, by simpa using h2.2⟩

theorem tryAddColumn_eq (cols : List String) (col : String) :
    tryAddColumn cols col
      = Except.ok (if col ∈ cols then cols else cols ++ [col]) := by
  by_cases h : col ∈ cols <;> simp [tryAddColumn, alterAddColumn, h]

theorem mem_after_add (cols : List String) (col : String) :
    col ∈ (if col ∈ cols then cols else cols ++ [col]) := by
  by_cases h : col ∈ cols <;> simp [h]

/-- C9: running the schema migration succeeds, and running it again on the
resulting schema raises no error and returns the same schema state — the
added columns are not duplicated. -/
theorem C9_migration_idempotent (s : Schema) :
    ∃ t, migrate_db s = Except.ok t ∧ migrate_db t = Except.ok t := by
  refine ⟨{ s with
      customersCols := if "is_active" ∈ s.customersCols then s.customersCols
        else s.customersCols ++ ["is_active"],
      doseLogsCols := if "extra_weeks" ∈ s.doseLogsCols then s.doseLogsCols
        else s.doseLogsCols ++ ["extra_weeks"] }, ?_, ?_⟩
  · simp [migrate_db, tryAddColumn_eq, Bind.bind, Except.bind, Pure.pure, Except.pure]
  · simp [migrate_db, tryAddColumn_eq, Bind.bind, Except.bind, Pure.pure, Except.pure,
      if_pos (mem_after_add s.customersCols "is_active"),
      if_pos (mem_after_add s.doseLogsCols "extra_weeks")]

/-! ## Helper lemmas for the de-duplication invariant (C6) -/

theorem processMilestone_cases (recs : List NotifRecord) (cid due dDay nd : Int)
    (ok : Bool) :
    processMilestone recs cid due dDay nd ok = recs ∨
    (dDay = nd ∧ hasRecord recs cid (notifyType nd) due = false ∧ ok = true ∧
      processMilestone recs cid due dDay nd ok
        = recs ++ [⟨cid, notifyType nd, due⟩]) := by
  by_cases h1 : dDay = nd
  · by_cases h2 : hasRecord recs cid (notifyType nd) due = true
    · exact Or.inl (by simp [processMilestone, h1, h2])
    · have h2f : hasRecord recs cid (notifyType nd) due = false :=
        Bool.eq_false_iff.mpr h2
      cases ok with
      | true => exact Or.inr ⟨h1, h2f, rfl, by simp [processMilestone, h1, h2f]⟩
      | false => exact Or.inl (by simp [processMilestone, h1, h2f])
  · exact Or.inl (by simp [processMilestone, h1])

theorem hasRecord_processMilestone (recs : List NotifRecord) (cid due dDay nd : Int)
    (ok : Bool) (c : Int) (t : String) (d : Int)
    (h : hasRecord recs c t d = true) :
    hasRecord (processMilestone recs cid due dDay nd ok) c t d = true := by
  rcases processMilestone_cases recs cid due dDay nd ok with he | ⟨_, _, _, he⟩ <;>
    rw [he] <;> simp [hasRecord_append, h]

theorem countP_eq_zero_of_no_record (recs : List NotifRecord) (c : Int) (t : String)
    (d : Int) (h : hasRecord recs c t d = false) :
    recs.countP (fun r => tripleMatches r c t d) = 0 := by
  rw [List.countP_eq_zero]
  intro r hr hm
  have hany : recs.any (fun r => tripleMatches r c t d) = true :=
    List.any_eq_true.mpr ⟨r, hr, hm⟩
  rw [hasRecord, hany] at h
  exact absurd h (by simp)

theorem dedupInvariant_processMilestone (recs : List NotifRecord)
    (cid due dDay nd : Int) (ok : Bool) (h : dedupInvariant recs) :
    dedupInvariant (processMilestone recs cid due dDay nd ok) := by
  rcases processMilestone_cases recs cid due dDay nd ok with he | ⟨_, hno, _, he⟩
  · rw [he]; exact h
  · rw [he]
    intro c t d
    rw [List.countP_append]
    by_cases hm : tripleMatches ⟨cid, notifyType nd, due⟩ c t d = true
    · have h3 : (cid = c ∧ notifyType nd = t) ∧ due = d := by
        simpa [tripleMatches] using hm
      obtain ⟨⟨rfl, rfl⟩, rfl⟩ := h3
      have hz : recs.countP (fun r => tripleMatches r cid (notifyType nd) due) = 0 :=
        countP_eq_zero_of_no_record recs _ _ _ hno
      simp [hz, List.countP_cons, hm]
    · have hm2 : tripleMatches ⟨cid, notifyType nd, due⟩ c t d = false :=
        Bool.eq_false_iff.mpr hm
      have hcount := h c t d
      simp only [List.countP_cons, List.countP_nil, hm2]
      simpa using hcount

theorem dedupInvariant_nil : dedupInvariant [] := by
  intro c t d
  simp

theorem runAttempts_cons (recs : List NotifRecord) (a : Attempt) (as : List Attempt) :
    runAttempts recs (a :: as)
      = runAttempts (processMilestone recs a.cid a.dueDate a.dDay a.nd a.sendOk) as := rfl

theorem runAttempts_append (recs : List NotifRecord) (as bs : List Attempt) :
    runAttempts recs (as ++ bs) = runAttempts (runAttempts recs as) bs := by
  simp [runAttempts, List.foldl_append]

theorem dedupInvariant_runAttempts (as : List Attempt) :
    ∀ recs, dedupInvariant recs → dedupInvariant (runAttempts recs as) := by
  induction as with
  | nil => exact fun recs h => h
  | cons a as ih =>
      intro recs h
      rw [runAttempts_cons]
      exact ih _ (dedupInvariant_processMilestone _ _ _ _ _ _ h)

theorem foldl_milestones_eq_runAttempts (nds : List Int) (cid due dDay : Int)
    (f : Int → Bool) : ∀ recs : List NotifRecord,
    nds.foldl (fun r2 nd => processMilestone r2 cid due dDay nd (f nd)) recs
      = runAttempts recs (nds.map (fun nd => ⟨cid, due, dDay, nd, f nd⟩)) := by
  induction nds with
  | nil => intro recs; rfl
  | cons n ns ih =>
      intro recs
      rw [List.foldl_cons, List.map_cons, runAttempts_cons]
      exact ih _

theorem check_and_notify_eq_runAttempts (ri : RunInput) :
    ∀ recs, check_and_notify ri recs = runAttempts recs (runAttemptList ri) := by
  obtain ⟨custs, logs, today, oracle⟩ := ri
  induction custs with
  | nil => intro recs; rfl
  | cons cu cs ih =>
      intro recs
      have hstep : check_and_notify ⟨cu :: cs, logs, today, oracle⟩ recs
          = check_and_notify ⟨cs, logs, today, oracle⟩
              (notifyDays.foldl
                (fun r2 nd => processMilestone r2 cu.id (computeNextDueDate cu logs)
                  (computeDDay (computeNextDueDate cu logs) today) nd (oracle cu.id nd))
                recs) := rfl
      have hlist : runAttemptList ⟨cu :: cs, logs, today, oracle⟩
          = (notifyDays.map (fun nd =>
              (⟨cu.id, computeNextDueDate cu logs,
                computeDDay (computeNextDueDate cu logs) today, nd,
                oracle cu.id nd⟩ : Attempt)))
            ++ runAttemptList ⟨cs, logs, today, oracle⟩ := rfl
      rw [hstep, ih, hlist, runAttempts_append, ← foldl_milestones_eq_runAttempts]

theorem allAttempts_cons (ri : RunInput) (runs : List RunInput) :
    allAttempts (ri :: runs) = runAttemptList ri ++ allAttempts runs := rfl

theorem foldl_runs_eq (runs : List RunInput) :
    ∀ recs, runs.foldl (fun r ri => check_and_notify ri r) recs
      = runAttempts recs (allAttempts runs) := by
  induction runs with
  | nil => intro recs; rfl
  | cons ri rs ih =>
      intro recs
      rw [List.foldl_cons, ih, allAttempts_cons, runAttempts_append,
        check_and_notify_eq_runAttempts]

theorem successSends_cons (recs : List NotifRecord) (c : Int) (t : String) (d : Int)
    (a : Attempt) (as : List Attempt) :
    successSends recs c t d (a :: as)
      = (if (decide (a.dDay = a.nd)
            && !(hasRecord recs a.cid (notifyType a.nd) a.dueDate) && a.sendOk)
            && tripleMatches ⟨a.cid, notifyType a.nd, a.dueDate⟩ c t d
         then 1 else 0)
        + successSends (processMilestone recs a.cid a.dueDate a.dDay a.nd a.sendOk)
            c t d as := rfl

theorem successSends_zero_of_record (c : Int) (t : String) (d : Int) :
    ∀ (as : List Attempt) (recs : List NotifRecord),
      hasRecord recs c t d = true → successSends recs c t d as = 0 := by
  intro as
  induction as with
  | nil => intro recs _; rfl
  | cons a as ih =>
      intro recs h
      rw [successSends_cons,
        ih _ (hasRecord_processMilestone recs a.cid a.dueDate a.dDay a.nd a.sendOk c t d h)]
      by_cases hm : tripleMatches ⟨a.cid, notifyType a.nd, a.dueDate⟩ c t d = true
      · have h3 : (a.cid = c ∧ notifyType a.nd = t) ∧ a.dueDate = d := by
          simpa [tripleMatches] using hm
        have hrec : hasRecord recs a.cid (notifyType a.nd) a.dueDate = true := by
          rw [h3.1.1, h3.1.2, h3.2]; exact h
        simp [hrec]
      · have hm2 : tripleMatches ⟨a.cid, notifyType a.nd, a.dueDate⟩ c t d = false :=
          Bool.eq_false_iff.mpr hm
        simp [hm2]

theorem successSends_le_one (c : Int) (t : String) (d : Int) :
    ∀ (as : List Attempt) (recs : List NotifRecord), successSends recs c t d as ≤ 1 := by
  intro as
  induction as with
  | nil => intro recs; simp [successSends]
  | cons a as ih =>
      intro recs
      rw [successSends_cons]
      by_cases hc : ((decide (a.dDay = a.nd)
            && !(hasRecord recs a.cid (notifyType a.nd) a.dueDate) && a.sendOk)
            && tripleMatches ⟨a.cid, notifyType a.nd, a.dueDate⟩ c t d) = true
      · have hc2 := hc
        simp only [Bool.and_eq_true, Bool.not_eq_true', decide_eq_true_eq] at hc2
        obtain ⟨⟨⟨hdd, hnr⟩, hok⟩, hm⟩ := hc2
        have hins : processMilestone recs a.cid a.dueDate a.dDay a.nd a.sendOk
            = recs ++ [⟨a.cid, notifyType a.nd, a.dueDate⟩] := by
          simp [processMilestone, hdd, hnr, hok]
        have hrec : hasRecord
            (processMilestone recs a.cid a.dueDate a.dDay a.nd a.sendOk) c t d = true := by
          rw [hins, hasRecord_append]
          simp [hasRecord, hm]
        rw [successSends_zero_of_record c t d as _ hrec, if_pos hc]
      · rw [if_neg hc]
        simpa using ih (processMilestone recs a.cid a.dueDate a.dDay a.nd a.sendOk)

/-- C6: a state reachable by sequential `check_and_notify` runs from the
empty notification log is exactly the sequential execution of the runs'
milestone attempts; every such state holds at most one NotificationRecord
per (customer, milestone-type, due-date) triple; and across all runs each
triple is successfully sent at most once, ever. -/
theorem C6_at_most_once_per_triple (runs : List RunInput) (c : Int) (t : String)
    (d : Int) :
    applyRuns runs = runAttempts [] (allAttempts runs) ∧
    dedupInvariant (applyRuns runs) ∧
    successSends [] c t d (allAttempts runs) ≤ 1 := by
  have he : applyRuns runs = runAttempts [] (allAttempts runs) := foldl_runs_eq runs []
  refine ⟨he, ?_, successSends_le_one c t d (allAttempts runs) []⟩
  rw [he]
  exact dedupInvariant_runAttempts (allAttempts runs) [] dedupInvariant_nil

/-! ## Helper lemmas for call-site agreement and extra-weeks independence (C10) -/

theorem logsFor_map_setExtra (logs : List DoseLog) (cid e : Int) :
    logsFor (logs.map (setExtra e)) cid = (logsFor logs cid).map (setExtra e) := by
  induction logs with
  | nil => rfl
  | cons l ls ih =>
      simp only [logsFor, List.map_cons, List.filter_cons] at ih ⊢
      by_cases h : l.customer_id = cid
      · simp [setExtra, h, ih]
      · simp [setExtra, h, ih]

theorem laterLog_map_setExtra (acc : Option DoseLog) (l : DoseLog) (e : Int) :
    laterLog (acc.map (setExtra e)) (setExtra e l) = (laterLog acc l).map (setExtra e) := by
  cases acc with
  | none => rfl
  | some m =>
      simp only [Option.map_some', laterLog, setExtra]
      by_cases h : m.taken_date < l.taken_date <;> simp [setExtra, h]

theorem latestLog_map_setExtra (ls : List DoseLog) (e : Int) :
    latestLog (ls.map (setExtra e)) = (latestLog ls).map (setExtra e) := by
  have hgen : ∀ acc : Option DoseLog,
      (ls.map (setExtra e)).foldl laterLog (acc.map (setExtra e))
        = (ls.foldl laterLog acc).map (setExtra e) := by
    induction ls with
    | nil => intro acc; rfl
    | cons l ls2 ih =>
        intro acc
        rw [List.map_cons, List.foldl_cons, List.foldl_cons, laterLog_map_setExtra]
        exact ih _
  simpa [latestLog] using hgen none

theorem computeNextDueDate_map_setExtra (cust : Customer) (logs : List DoseLog)
    (e : Int) :
    computeNextDueDate cust (logs.map (setExtra e)) = computeNextDueDate cust logs := by
  rw [computeNextDueDate, computeNextDueDate, logsFor_map_setExtra, latestLog_map_setExtra]
  cases latestLog (logsFor logs cust.id) with
  | none => rfl
  | some l => rfl

theorem viewNextDueDate_map_setExtra (cust : Customer) (logs : List DoseLog)
    (e : Int) :
    viewNextDueDate cust (logs.map (setExtra e)) = viewNextDueDate cust logs := by
  rw [viewNextDueDate, viewNextDueDate, logsFor_map_setExtra, latestLog_map_setExtra]
  cases latestLog (logsFor logs cust.id) with
  | none => rfl
  | some l => rfl

theorem indexNextDueDate_map_setExtra (cust : Customer) (logs : List DoseLog)
    (e : Int) :
    indexNextDueDate cust (logs.map (setExtra e)) = indexNextDueDate cust logs := by
  rw [indexNextDueDate, indexNextDueDate, logsFor_map_setExtra, latestLog_map_setExtra]
  cases latestLog (logsFor logs cust.id) with
  | none => rfl
  | some l => cases l.taken_week with
      | none => rfl
      | some w => rfl

/-- C10, counterexample: for a latest dose record with `taken_week = 0`,
`index` computes taken-date + 0 while `check_and_notify` substitutes the
default 4 weeks and computes taken-date + 28, so the three call sites do
not all agree. -/
theorem C10_counterexample :
    indexNextDueDate ⟨2, "B", "c", 0, true⟩ [⟨2, 100, some 0, 0, ""⟩]
      ≠ some (computeNextDueDate ⟨2, "B", "c", 0, true⟩ [⟨2, 100, some 0, 0, ""⟩]) := by
  decide

/-- C10 (amended): `check_and_notify` and `view_customer` always compute
the same due date (hence the same dDay for any today); `index` agrees
whenever the customer has no dose record, or the latest record's
interval-in-weeks is present and nonzero (on a missing interval `index`
raises, and a zero interval it uses as is, where the other two fall back
to 4); and overwriting the stored extra-weeks field never changes the due
date computed at any of the three sites. -/
theorem C10_call_site_agreement (cust : Customer) (logs : List DoseLog)
    (today e : Int) :
    viewNextDueDate cust logs = computeNextDueDate cust logs ∧
    computeDDay (viewNextDueDate cust logs) today
      = computeDDay (computeNextDueDate cust logs) today ∧
    (∀ l w, latestLog (logsFor logs cust.id) = some l → l.taken_week = some w →
      w ≠ 0 → indexNextDueDate cust logs = some (computeNextDueDate cust logs)) ∧
    (logsFor logs cust.id = [] →
      indexNextDueDate cust logs = some (computeNextDueDate cust logs)) ∧
    computeNextDueDate cust (logs.map (setExtra e)) = computeNextDueDate cust logs ∧
    viewNextDueDate cust (logs.map (setExtra e)) = viewNextDueDate cust logs ∧
    indexNextDueDate cust (logs.map (setExtra e)) = indexNextDueDate cust logs := by
  have hview : viewNextDueDate cust logs = computeNextDueDate cust logs := by
    rw [viewNextDueDate, computeNextDueDate]
  refine ⟨hview, by rw [hview], ?_, ?_,
    computeNextDueDate_map_setExtra cust logs e,
    viewNextDueDate_map_setExtra cust logs e,
    indexNextDueDate_map_setExtra cust logs e⟩
  · intro l w hl hw hw0
    simp [indexNextDueDate, computeNextDueDate, hl, hw, effWeek, hw0]
  · intro h
    simp [indexNextDueDate, computeNextDueDate, h, latestLog]

/-- C10, witness at a concrete input. -/
theorem C10_call_site_agreement_witness :
    indexNextDueDate ⟨3, "C", "c", 0, true⟩ [⟨3, 50, some 2, 0, ""⟩]
      = some (computeNextDueDate ⟨3, "C", "c", 0, true⟩ [⟨3, 50, some 2, 0, ""⟩]) :=
  (C10_call_site_agreement ⟨3, "C", "c", 0, true⟩ [⟨3, 50, some 2, 0, ""⟩] 0 0).2.2.1
    ⟨3, 50, some 2, 0, ""⟩ 2 rfl rfl (by decide)

end MedApp
